import Mathlib

/-!
Shallow embedding of the Minesweeper board engine (src/game.ts) and proofs
about its operations.  The board is modelled as a total function from
coordinates to cells; cells outside the configured grid are never read by
the engine because every access goes through the bounds-checked getCell.
Randomness (Math.random draws in placeMines) is modelled as an explicit
stream of candidate picks, and the rejection-sampling loop and the recursive
flood fill return Option: none models a computation that did not finish
within the supplied stream/fuel, some is the value the program returns.
-/

namespace Minesweeper

/-- A cell of the grid, as built by initBoard in game.ts. -/
structure Cell where
  row : Nat
  col : Nat
  isMine : Bool
  isRevealed : Bool
  isFlagged : Bool
  adjacentMines : Nat
  deriving DecidableEq, Repr

/-- Game configuration (rows, cols, mines) from types.ts usage. -/
structure GameConfig where
  rows : Nat
  cols : Nat
  mines : Nat
  deriving DecidableEq, Repr

/-- The game state union type: playing, won or lost. -/
inductive GameState where
  | playing
  | won
  | lost
  deriving DecidableEq, Repr

/-- A board is a total assignment of cells to coordinates; only the
rows × cols rectangle is ever observed. -/
def Board : Type := Nat → Nat → Cell

/-- The MinesweeperGame class fields: config, board, _gameState,
_flagCount (a JS number, may be driven negative or arbitrary by
deserialize, hence Int) and firstClick. -/
structure MinesweeperGame where
  config : GameConfig
  board : Board
  gameState : GameState
  flagCount : Int
  firstClick : Bool

/-- initBoard: every cell starts non-mine, unrevealed, unflagged, 0 adjacent. -/
def initBoard : Board := fun r c =>
  { row := r, col := c, isMine := false, isRevealed := false,
    isFlagged := false, adjacentMines := 0 }

/-- The constructor: new MinesweeperGame(config). -/
def mkGame (config : GameConfig) : MinesweeperGame :=
  { config := config, board := initBoard, gameState := GameState.playing,
    flagCount := 0, firstClick := true }

/-- Pointwise update of one board position. -/
def updateCell (b : Board) (r c : Nat) (f : Cell → Cell) : Board := fun r' c' =>
  if r' = r ∧ c' = c then f (b r' c') else b r' c'

/-- getCell on a raw board: null (none) outside the grid, the stored cell
inside.  Coordinates are integers because callers pass row ± 1 offsets. -/
def getCellB (cfg : GameConfig) (b : Board) (row col : Int) : Option Cell :=
  if 0 ≤ row ∧ row < (cfg.rows : Int) ∧ 0 ≤ col ∧ col < (cfg.cols : Int) then
    some (b row.toNat col.toNat)
  else none

/-- getCell of the game object. -/
def getCell (g : MinesweeperGame) (row col : Int) : Option Cell :=
  getCellB g.config g.board row col

/-- The 8 Moore-neighborhood offsets, in the order the nested
dr/dc loops of game.ts visit them (skipping (0,0)). -/
def offsets : List (Int × Int) :=
  [(-1, -1), (-1, 0), (-1, 1), (0, -1), (0, 1), (1, -1), (1, 0), (1, 1)]

/-- countAdjacentMines: number of in-grid Moore neighbors that are mines. -/
def countAdjacentMines (cfg : GameConfig) (b : Board) (row col : Nat) : Nat :=
  offsets.countP fun d =>
    match getCellB cfg b ((row : Int) + d.1) ((col : Int) + d.2) with
    | some cell => cell.isMine
    | none => false

/-- calculateAdjacentMines: recompute adjacentMines for every in-grid
non-mine cell (mine cells and out-of-grid cells are left untouched).
The counts only read isMine, which the pass does not modify, so reading
from the pre-pass board matches the in-place loop of game.ts. -/
def calculateAdjacentMines (cfg : GameConfig) (b : Board) : Board := fun r c =>
  if r < cfg.rows ∧ c < cfg.cols ∧ (b r c).isMine = false then
    { b r c with adjacentMines := countAdjacentMines cfg b r c }
  else b r c

/-- maxMines = Math.min(mines, rows*cols - 9).  Nat subtraction truncates at
zero exactly as the JS while loop executes max(0, min(...)) iterations when
rows*cols - 9 is negative. -/
def maxMines (cfg : GameConfig) : Nat :=
  min cfg.mines (cfg.rows * cfg.cols - 9)

/-- The rejection-sampling loop of placeMines.  Each pick models one pair of
Math.random draws (reduced mod rows/cols so it lies in the drawn range);
candidates inside the 3x3 exclusion block around (excludeRow, excludeCol) or
on an existing mine are rejected.  none models the loop not having finished
within the supplied stream. -/
def placeLoop (cfg : GameConfig) (exR exC : Int) :
    List (Nat × Nat) → Nat → Board → Option Board
  | picks, placed, b =>
    if maxMines cfg ≤ placed then some b
    else
      match picks with
      | [] => none
      | (pr, pc) :: rest =>
        let row := pr % cfg.rows
        let col := pc % cfg.cols
        if ((row : Int) - exR).natAbs ≤ 1 ∧ ((col : Int) - exC).natAbs ≤ 1 then
          placeLoop cfg exR exC rest placed b
        else if (b row col).isMine then
          placeLoop cfg exR exC rest placed b
        else
          placeLoop cfg exR exC rest (placed + 1)
            (updateCell b row col fun cell => { cell with isMine := true })

/-- placeMines: run the sampling loop from zero placed mines, then compute
all adjacency counts. -/
def placeMines (cfg : GameConfig) (picks : List (Nat × Nat))
    (exR exC : Int) (b : Board) : Option Board :=
  (placeLoop cfg exR exC picks 0 b).map (calculateAdjacentMines cfg)

/-- revealAllMines: mark every in-grid mine cell revealed. -/
def revealAllMinesB (cfg : GameConfig) (b : Board) : Board := fun r c =>
  if r < cfg.rows ∧ c < cfg.cols ∧ (b r c).isMine = true then
    { b r c with isRevealed := true }
  else b r c

/-- revealAllCells: mark every in-grid cell revealed. -/
def revealAllCellsB (cfg : GameConfig) (b : Board) : Board := fun r c =>
  if r < cfg.rows ∧ c < cfg.cols then { b r c with isRevealed := true }
  else b r c

/-- The in-grid coordinate rectangle the counting loops of game.ts range over. -/
def cellRect (cfg : GameConfig) : Finset (Nat × Nat) :=
  Finset.range cfg.rows ×ˢ Finset.range cfg.cols

/-- Number of unrevealed safe cells (win condition 1 counter in checkWin). -/
def unrevealedSafeCount (cfg : GameConfig) (b : Board) : Nat :=
  ((cellRect cfg).filter fun p =>
    (b p.1 p.2).isMine = false ∧ (b p.1 p.2).isRevealed = false).card

/-- Total number of mines actually on the (in-grid part of the) board. -/
def mineCnt (cfg : GameConfig) (b : Board) : Nat :=
  ((cellRect cfg).filter fun p => (b p.1 p.2).isMine = true).card

/-- Number of in-grid cells currently flagged. -/
def actualFlagCnt (cfg : GameConfig) (b : Board) : Nat :=
  ((cellRect cfg).filter fun p => (b p.1 p.2).isFlagged = true).card

/-- The allMinesFlagged scan of checkWin: every in-grid mine cell is flagged. -/
def allMinesFlagged (cfg : GameConfig) (b : Board) : Bool :=
  (List.range cfg.rows).all fun r =>
    (List.range cfg.cols).all fun c =>
      !(b r c).isMine || (b r c).isFlagged

/-- The guard of checkWin's second transition: the flag counter equals the
configured mine count and every mine cell is flagged. -/
def winViaFlagsCond (g : MinesweeperGame) : Prop :=
  g.flagCount = (g.config.mines : Int) ∧ allMinesFlagged g.config g.board = true

instance (g : MinesweeperGame) : Decidable (winViaFlagsCond g) := by
  unfold winViaFlagsCond; infer_instance

/-- checkWin: win condition 1 (all safe cells revealed) else win condition 2
(all mines correctly flagged); each winner reveals the whole board. -/
def checkWin (g : MinesweeperGame) : MinesweeperGame :=
  if unrevealedSafeCount g.config g.board = 0 then
    { g with gameState := GameState.won,
             board := revealAllCellsB g.config g.board }
  else if winViaFlagsCond g then
    { g with gameState := GameState.won,
             board := revealAllCellsB g.config g.board }
  else g

/-- The first-click step inside reveal: on the first click, place the mines
with the clicked cell as exclusion center and clear firstClick. -/
def placeStep (picks : List (Nat × Nat)) (g : MinesweeperGame)
    (row col : Int) : Option MinesweeperGame :=
  if g.firstClick then
    (placeMines g.config picks row col g.board).map fun b =>
      { g with board := b, firstClick := false }
  else some g

/-- The cell.isRevealed = true mutation of reveal. -/
def setRevealed (g : MinesweeperGame) (rt ct : Nat) : MinesweeperGame :=
  { g with board := (updateCell g.board rt ct
      (fun cell => { cell with isRevealed := true })) }

/-- The losing transition of reveal: state Lost and every mine revealed. -/
def toLostState (g : MinesweeperGame) : MinesweeperGame :=
  { g with gameState := GameState.lost,
           board := revealAllMinesB g.config g.board }

/-- reveal(row, col) with an explicit fuel bound on the recursion depth of
the cascade; none means the fuel ran out (the JS recursion always
terminates, so every some result is the value game.ts returns).  The
zero-adjacency cascade visits the 8 neighbors in the dr/dc loop order; the
revealed cell is re-read from the board after mine placement, exactly as
the live object reference in game.ts observes the placement. -/
def reveal (picks : List (Nat × Nat)) :
    Nat → MinesweeperGame → Int → Int → Option (Bool × MinesweeperGame)
  | 0, _, _, _ => none
  | fuel + 1, g, row, col =>
    if g.gameState ≠ GameState.playing then some (false, g)
    else
      match getCell g row col with
      | none => some (false, g)
      | some cell0 =>
        if cell0.isRevealed || cell0.isFlagged then some (false, g)
        else
          (placeStep picks g row col).bind fun g1 =>
            if ((setRevealed g1 row.toNat col.toNat).board
                row.toNat col.toNat).isMine then
              some (true, toLostState (setRevealed g1 row.toNat col.toNat))
            else if ((setRevealed g1 row.toNat col.toNat).board
                row.toNat col.toNat).adjacentMines = 0 then
              (reveal picks fuel (setRevealed g1 row.toNat col.toNat)
                  (row - 1) (col - 1)).bind fun p1 =>
              (reveal picks fuel p1.2 (row - 1) col).bind fun p2 =>
              (reveal picks fuel p2.2 (row - 1) (col + 1)).bind fun p3 =>
              (reveal picks fuel p3.2 row (col - 1)).bind fun p4 =>
              (reveal picks fuel p4.2 row (col + 1)).bind fun p5 =>
              (reveal picks fuel p5.2 (row + 1) (col - 1)).bind fun p6 =>
              (reveal picks fuel p6.2 (row + 1) col).bind fun p7 =>
              (reveal picks fuel p7.2 (row + 1) (col + 1)).bind fun p8 =>
              some (true, checkWin p8.2)
            else
              some (true, checkWin (setRevealed g1 row.toNat col.toNat))

/-- toggleFlag(row, col): flip the flag of an unrevealed in-grid cell while
playing, adjust the flag counter, then evaluate the win conditions. -/
def toggleFlag (g : MinesweeperGame) (row col : Int) :
    Bool × MinesweeperGame :=
  if g.gameState ≠ GameState.playing then (false, g)
  else
    match getCell g row col with
    | none => (false, g)
    | some cell =>
      if cell.isRevealed then (false, g)
      else
        let newFlagged := !cell.isFlagged
        let g1 : MinesweeperGame :=
          { g with board := (updateCell g.board row.toNat col.toNat
                     (fun c => { c with isFlagged := newFlagged })),
                   flagCount := g.flagCount + (if newFlagged then 1 else -1) }
        (true, checkWin g1)

/-- Number of flagged Moore neighbors, as counted by the first loop of chord. -/
def adjFlagCount (g : MinesweeperGame) (row col : Int) : Nat :=
  offsets.countP fun d =>
    match getCell g (row + d.1) (col + d.2) with
    | some adj => adj.isFlagged
    | none => false

/-- One iteration of chord's reveal loop: reveal the neighbor when it exists
and is neither flagged nor revealed (reading the current, threaded board). -/
def chordStep (picks : List (Nat × Nat)) (fuel : Nat)
    (g : MinesweeperGame) (row col : Int) : Option MinesweeperGame :=
  match getCell g row col with
  | some adj =>
    if !adj.isFlagged && !adj.isRevealed then
      (reveal picks fuel g row col).map Prod.snd
    else some g
  | none => some g

/-- chord(row, col): on a revealed numbered cell whose flagged-neighbor count
matches its number, reveal all unflagged unrevealed neighbors and report
true; otherwise report false and change nothing. -/
def chord (picks : List (Nat × Nat)) (fuel : Nat)
    (g : MinesweeperGame) (row col : Int) : Option (Bool × MinesweeperGame) :=
  if g.gameState ≠ GameState.playing then some (false, g)
  else
    match getCell g row col with
    | none => some (false, g)
    | some cell =>
      if !cell.isRevealed || cell.adjacentMines = 0 then some (false, g)
      else if adjFlagCount g row col = cell.adjacentMines then
        (chordStep picks fuel g (row - 1) (col - 1)).bind fun ga =>
        (chordStep picks fuel ga (row - 1) col).bind fun gb =>
        (chordStep picks fuel gb (row - 1) (col + 1)).bind fun gc =>
        (chordStep picks fuel gc row (col - 1)).bind fun gd =>
        (chordStep picks fuel gd row (col + 1)).bind fun ge =>
        (chordStep picks fuel ge (row + 1) (col - 1)).bind fun gf =>
        (chordStep picks fuel gf (row + 1) col).bind fun gg =>
        (chordStep picks fuel gg (row + 1) (col + 1)).bind fun gh =>
        some (true, gh)
      else some (false, g)

/-- One cell of the persisted snapshot grid (row/col are not stored). -/
structure SavedCell where
  isMine : Bool
  isRevealed : Bool
  isFlagged : Bool
  adjacentMines : Nat
  deriving DecidableEq, Repr

/-- The GameSaveData snapshot produced by serialize. -/
structure GameSaveData where
  config : GameConfig
  board : List (List SavedCell)
  gameState : GameState
  flagCount : Int
  firstClick : Bool
  deriving DecidableEq, Repr

/-- Projection of a live cell to its stored fields. -/
def toSaved (c : Cell) : SavedCell :=
  { isMine := c.isMine, isRevealed := c.isRevealed,
    isFlagged := c.isFlagged, adjacentMines := c.adjacentMines }

/-- serialize(): dimensions, per-cell grid, state, flag count, firstClick. -/
def serialize (g : MinesweeperGame) : GameSaveData :=
  { config := g.config,
    board := (List.range g.config.rows).map fun r =>
      (List.range g.config.cols).map fun c => toSaved (g.board r c),
    gameState := g.gameState,
    flagCount := g.flagCount,
    firstClick := g.firstClick }

/-- Whether the restore loops of deserialize can read every entry
data.board[row][col] for row < rows, col < cols.  When some access hits
undefined the JS code throws a TypeError; that run is modelled as none. -/
def snapshotAccessOk (d : GameSaveData) : Bool :=
  (List.range d.config.rows).all fun r =>
    (List.range d.config.cols).all fun c =>
      (((d.board.get? r).bind fun rowL => rowL.get? c)).isSome

/-- A restored in-grid cell, with row/col rebuilt from grid position. -/
def fromSaved (r c : Nat) (s : SavedCell) : Cell :=
  { row := r, col := c, isMine := s.isMine, isRevealed := s.isRevealed,
    isFlagged := s.isFlagged, adjacentMines := s.adjacentMines }

/-- deserialize(data): construct a game from the config, overwrite state,
flag counter and firstClick, and copy the declared rows × cols rectangle of
cells from the stored grid.  The code performs no validation: entries beyond
the declared rectangle are silently ignored, and a declared rectangle larger
than the stored grid makes the copy loop hit undefined (modelled as none). -/
def deserialize (d : GameSaveData) : Option MinesweeperGame :=
  if snapshotAccessOk d then
    some { config := d.config,
           board := fun r c =>
             if r < d.config.rows ∧ c < d.config.cols then
               fromSaved r c ((d.board.getD r []).getD c
                 { isMine := false, isRevealed := false,
                   isFlagged := false, adjacentMines := 0 })
             else initBoard r c,
           gameState := d.gameState,
           flagCount := d.flagCount,
           firstClick := d.firstClick }
  else none

/-! ### Basic lemmas about the board primitives -/

theorem updateCell_self (b : Board) (r c : Nat) (f : Cell → Cell) :
    updateCell b r c f r c = f (b r c) := by
  simp [updateCell]

theorem updateCell_other (b : Board) (r c : Nat) (f : Cell → Cell)
    (r' c' : Nat) (h : ¬(r' = r ∧ c' = c)) :
    updateCell b r c f r' c' = b r' c' := by
  simp [updateCell, h]

theorem getCell_eq_some {g : MinesweeperGame} {row col : Int} {cell : Cell}
    (h : getCell g row col = some cell) :
    (0 ≤ row ∧ row < (g.config.rows : Int) ∧ 0 ≤ col ∧ col < (g.config.cols : Int)) ∧
      g.board row.toNat col.toNat = cell := by
  unfold getCell getCellB at h
  by_cases hb : 0 ≤ row ∧ row < (g.config.rows : Int) ∧ 0 ≤ col ∧ col < (g.config.cols : Int)
  · rw [if_pos hb] at h
    exact ⟨hb, Option.some.inj h⟩
  · rw [if_neg hb] at h
    exact absurd h (by simp)

theorem checkWin_playing_eq {g : MinesweeperGame}
    (h : (checkWin g).gameState = GameState.playing) : checkWin g = g := by
  unfold checkWin at h ⊢
  by_cases h1 : unrevealedSafeCount g.config g.board = 0
  · rw [if_pos h1] at h; exact absurd h (by simp)
  · rw [if_neg h1] at h ⊢
    by_cases h2 : winViaFlagsCond g
    · rw [if_pos h2] at h; exact absurd h (by simp)
    · rw [if_neg h2]

/-- Pointwise agreement of the mine layout of two boards. -/
def minesAgree (b b' : Board) : Prop :=
  ∀ r c, (b' r c).isMine = (b r c).isMine

theorem minesAgree_refl (b : Board) : minesAgree b b := fun _ _ => rfl

theorem minesAgree_trans {a b c : Board}
    (h1 : minesAgree a b) (h2 : minesAgree b c) : minesAgree a c :=
  fun r k => (h2 r k).trans (h1 r k)

theorem minesAgree_updateRevealed (b : Board) (r c : Nat) :
    minesAgree b (updateCell b r c fun cell => { cell with isRevealed := true }) := by
  intro r' c'
  unfold updateCell
  by_cases h : r' = r ∧ c' = c <;> simp [h]

theorem minesAgree_updateFlagged (b : Board) (r c : Nat) (v : Bool) :
    minesAgree b (updateCell b r c fun cell => { cell with isFlagged := v }) := by
  intro r' c'
  unfold updateCell
  by_cases h : r' = r ∧ c' = c <;> simp [h]

theorem minesAgree_revealAllMines (cfg : GameConfig) (b : Board) :
    minesAgree b (revealAllMinesB cfg b) := by
  intro r c
  unfold revealAllMinesB
  by_cases h : r < cfg.rows ∧ c < cfg.cols ∧ (b r c).isMine = true <;> simp [h]

theorem minesAgree_revealAllCells (cfg : GameConfig) (b : Board) :
    minesAgree b (revealAllCellsB cfg b) := by
  intro r c
  unfold revealAllCellsB
  by_cases h : r < cfg.rows ∧ c < cfg.cols <;> simp [h]

theorem minesAgree_calc (cfg : GameConfig) (b : Board) :
    minesAgree b (calculateAdjacentMines cfg b) := by
  intro r c
  unfold calculateAdjacentMines
  by_cases h : r < cfg.rows ∧ c < cfg.cols ∧ (b r c).isMine = false <;> simp [h]

theorem checkWin_config (g : MinesweeperGame) : (checkWin g).config = g.config := by
  unfold checkWin
  by_cases h1 : unrevealedSafeCount g.config g.board = 0 <;>
    by_cases h2 : winViaFlagsCond g <;> simp [h1, h2]

theorem checkWin_firstClick (g : MinesweeperGame) :
    (checkWin g).firstClick = g.firstClick := by
  unfold checkWin
  by_cases h1 : unrevealedSafeCount g.config g.board = 0 <;>
    by_cases h2 : winViaFlagsCond g <;> simp [h1, h2]

theorem checkWin_minesAgree (g : MinesweeperGame) :
    minesAgree g.board (checkWin g).board := by
  unfold checkWin
  by_cases h1 : unrevealedSafeCount g.config g.board = 0 <;>
    by_cases h2 : winViaFlagsCond g <;>
      simp [h1, h2, minesAgree_revealAllCells, minesAgree_refl]

/-! ### Claim C1: game over is absorbing -/

/-- Claim C1: once the game state is won or lost, reveal, toggleFlag
(CycleMark) and chord all return false and leave the game — every cell,
the flag counter and the state — unchanged. -/
theorem gameOverAbsorbing (picks : List (Nat × Nat)) (fuel : Nat)
    (g : MinesweeperGame) (row col : Int)
    (h : g.gameState = GameState.won ∨ g.gameState = GameState.lost) :
    reveal picks (fuel + 1) g row col = some (false, g) ∧
      toggleFlag g row col = (false, g) ∧
      chord picks fuel g row col = some (false, g) := by
  have hne : g.gameState ≠ GameState.playing := by
    rcases h with h | h <;> simp [h]
  refine ⟨?_, ?_, ?_⟩
  · rw [reveal]; rw [if_pos hne]
  · rw [toggleFlag]; rw [if_pos hne]
  · rw [chord]; rw [if_pos hne]

/-- A concrete finished game used to witness the absorbing property. -/
def gLost : MinesweeperGame :=
  { mkGame { rows := 2, cols := 2, mines := 1 } with gameState := GameState.lost }

/-- Witness for C1 at a concrete lost game. -/
theorem gameOverAbsorbingWitness :
    reveal [] 5 gLost 0 0 = some (false, gLost) ∧
      toggleFlag gLost 0 0 = (false, gLost) ∧
      chord [] 4 gLost 0 0 = some (false, gLost) :=
  gameOverAbsorbing [] 4 gLost 0 0 (Or.inr rfl)

/-! ### Claim C9: deserialize does not validate snapshot shape -/

/-- A default-valued stored cell. -/
def sCell : SavedCell :=
  { isMine := false, isRevealed := false, isFlagged := false, adjacentMines := 0 }

/-- A malformed snapshot: the declared dimensions (1 × 1) do not match the
shape of the stored grid (2 × 2). -/
def badSnap : GameSaveData :=
  { config := { rows := 1, cols := 1, mines := 0 },
    board := [[sCell, sCell], [sCell, sCell]],
    gameState := GameState.playing, flagCount := 0, firstClick := false }

/-- Claim C9 (evaluation at the failing input): deserialize silently accepts
a snapshot whose declared rows/cols (1 × 1) disagree with the stored grid
shape (2 × 2), constructing a board instead of failing with an
invalid-snapshot error.  No validation path exists in the code. -/
theorem deserializeAcceptsMismatch :
    badSnap.config.rows = 1 ∧ badSnap.config.cols = 1 ∧
      badSnap.board.length = 2 ∧ (badSnap.board.getD 0 []).length = 2 ∧
      (deserialize badSnap).isSome = true := by decide

/-! ### Claim C3: the all-mines-flagged win admits stray flags -/

/-- Two flag toggles on a fresh 2 × 2 board configured with 2 mines:
no reveal has happened, so no mines were ever placed. -/
def strayFlagGame : MinesweeperGame :=
  (toggleFlag ((toggleFlag (mkGame { rows := 2, cols := 2, mines := 2 }) 0 0).2) 0 1).2

/-- Counterexample to claim C3: the second toggleFlag transitions the game
to won through the flag-count win condition (the board holds zero mines, so
condition 1 — all safe cells revealed — cannot have fired from an unrevealed
board, and every mine is vacuously flagged), yet both flags sit on safe
cells: flagged cell (0,0) is not a mine. -/
theorem flagWinStrayFlagCounterexample :
    strayFlagGame.gameState = GameState.won ∧
      strayFlagGame.flagCount = 2 ∧
      mineCnt strayFlagGame.config strayFlagGame.board = 0 ∧
      actualFlagCnt strayFlagGame.config strayFlagGame.board = 2 ∧
      (strayFlagGame.board 0 0).isFlagged = true ∧
      (strayFlagGame.board 0 0).isMine = false := by decide

/-! ### Claim C4: the mark operation is a binary toggle, not a 3-state cycle -/

/-- Fresh 2 × 2 board with an unreachable flag-win threshold of 5 mines. -/
def cycleGame0 : MinesweeperGame := mkGame { rows := 2, cols := 2, mines := 5 }

/-- One, two and three successive toggleFlag calls on the same cell. -/
def cycleGame1 : MinesweeperGame := (toggleFlag cycleGame0 0 0).2

def cycleGame2 : MinesweeperGame := (toggleFlag cycleGame1 0 0).2

def cycleGame3 : MinesweeperGame := (toggleFlag cycleGame2 0 0).2

/-- Counterexample to claim C4: there is no Questioned state — toggleFlag is
a binary toggle.  After three calls the cell is flagged again (not unmarked)
and the third call changed flagCount from 0 back to 1 (not unchanged). -/
theorem threeStateCycleCounterexample :
    cycleGame1.gameState = GameState.playing ∧
      cycleGame2.gameState = GameState.playing ∧
      cycleGame3.gameState = GameState.playing ∧
      (cycleGame1.board 0 0).isFlagged = true ∧ cycleGame1.flagCount = 1 ∧
      (cycleGame2.board 0 0).isFlagged = false ∧ cycleGame2.flagCount = 0 ∧
      (cycleGame3.board 0 0).isFlagged = true ∧ cycleGame3.flagCount = 1 := by
  decide

theorem checkWin_flagCount (g : MinesweeperGame) :
    (checkWin g).flagCount = g.flagCount := by
  unfold checkWin
  by_cases h1 : unrevealedSafeCount g.config g.board = 0 <;>
    by_cases h2 : winViaFlagsCond g <;> simp [h1, h2]

theorem revealAllCellsB_isFlagged (cfg : GameConfig) (b : Board) (r c : Nat) :
    ((revealAllCellsB cfg b) r c).isFlagged = (b r c).isFlagged := by
  unfold revealAllCellsB
  by_cases h : r < cfg.rows ∧ c < cfg.cols <;> simp [h]

theorem checkWin_isFlagged (g : MinesweeperGame) (r c : Nat) :
    ((checkWin g).board r c).isFlagged = (g.board r c).isFlagged := by
  unfold checkWin
  by_cases h1 : unrevealedSafeCount g.config g.board = 0 <;>
    by_cases h2 : winViaFlagsCond g <;>
      simp [h1, h2, revealAllCellsB_isFlagged]

theorem getCell_update (g : MinesweeperGame) (b : Board) (fc : Int)
    (row col : Int)
    (h : 0 ≤ row ∧ row < (g.config.rows : Int) ∧ 0 ≤ col ∧ col < (g.config.cols : Int)) :
    getCell { g with board := b, flagCount := fc } row col =
      some (b row.toNat col.toNat) := by
  unfold getCell getCellB
  exact if_pos h

/-- The one-step unfolding of a successful toggleFlag call. -/
theorem toggleFlag_step (g : MinesweeperGame) (row col : Int) (cell : Cell)
    (hst : g.gameState = GameState.playing)
    (hcell : getCell g row col = some cell)
    (hrev : cell.isRevealed = false) :
    toggleFlag g row col =
      (true, checkWin { g with
        board := (updateCell g.board row.toNat col.toNat
          (fun c => { c with isFlagged := !cell.isFlagged })),
        flagCount := g.flagCount + (if !cell.isFlagged then 1 else -1) }) := by
  rw [toggleFlag, if_neg (by simp [hst]), hcell]
  simp [hrev]

/-- A successful toggleFlag call after which the game is still playing did
not fire checkWin: the result is exactly the flag/counter update. -/
theorem toggleFlag_playing (g : MinesweeperGame) (row col : Int) (cell : Cell)
    (hst : g.gameState = GameState.playing)
    (hcell : getCell g row col = some cell)
    (hrev : cell.isRevealed = false)
    (hp : ((toggleFlag g row col).2).gameState = GameState.playing) :
    (toggleFlag g row col).1 = true ∧
      (toggleFlag g row col).2 = { g with
        board := (updateCell g.board row.toNat col.toNat
          (fun c => { c with isFlagged := !cell.isFlagged })),
        flagCount := g.flagCount + (if !cell.isFlagged then 1 else -1) } := by
  have e1 := toggleFlag_step g row col cell hst hcell hrev
  rw [e1] at hp ⊢
  exact ⟨rfl, checkWin_playing_eq hp⟩

/-! ### Claim C4 (amended): the binary flag toggle cycle -/

/-- Claim C4 (amended): toggleFlag is a two-state toggle.  On an unrevealed
unflagged cell of a playing board that stays playing through the first two
calls, the first call flags the cell and raises flagCount by 1, the second
unflags it and lowers flagCount by 1 (restoring the unmarked state after
two calls, not three), and the third call flags it again and raises
flagCount by 1 — there is no Questioned state. -/
theorem binaryFlagToggleCycle (g : MinesweeperGame) (row col : Int) (cell : Cell)
    (hst : g.gameState = GameState.playing)
    (hcell : getCell g row col = some cell)
    (hrev : cell.isRevealed = false)
    (hfl : cell.isFlagged = false)
    (h1 : ((toggleFlag g row col).2).gameState = GameState.playing)
    (h2 : ((toggleFlag (toggleFlag g row col).2 row col).2).gameState =
      GameState.playing) :
    (toggleFlag g row col).1 = true ∧
    ((toggleFlag g row col).2.board row.toNat col.toNat).isFlagged = true ∧
    (toggleFlag g row col).2.flagCount = g.flagCount + 1 ∧
    (toggleFlag (toggleFlag g row col).2 row col).1 = true ∧
    ((toggleFlag (toggleFlag g row col).2 row col).2.board
      row.toNat col.toNat).isFlagged = false ∧
    (toggleFlag (toggleFlag g row col).2 row col).2.flagCount = g.flagCount ∧
    (toggleFlag (toggleFlag (toggleFlag g row col).2 row col).2 row col).1 = true ∧
    ((toggleFlag (toggleFlag (toggleFlag g row col).2 row col).2 row col).2.board
      row.toNat col.toNat).isFlagged = true ∧
    (toggleFlag (toggleFlag (toggleFlag g row col).2 row col).2 row col).2.flagCount =
      g.flagCount + 1 := by
  obtain ⟨hb, hce⟩ := getCell_eq_some hcell
  obtain ⟨t1, r1eq⟩ := toggleFlag_playing g row col cell hst hcell hrev h1
  rw [r1eq] at h2 ⊢
  have hcellA : getCell
      { g with
        board := (updateCell g.board row.toNat col.toNat
          (fun c => { c with isFlagged := !cell.isFlagged })),
        flagCount := g.flagCount + (if !cell.isFlagged then 1 else -1) } row col =
      some { cell with isFlagged := !cell.isFlagged } := by
    rw [getCell_update _ _ _ _ _ hb, updateCell_self, hce]
  obtain ⟨t2, r2eq⟩ := toggleFlag_playing
    { g with
      board := (updateCell g.board row.toNat col.toNat
        (fun c => { c with isFlagged := !cell.isFlagged })),
      flagCount := g.flagCount + (if !cell.isFlagged then 1 else -1) }
    row col { cell with isFlagged := !cell.isFlagged } hst hcellA hrev h2
  dsimp only at r2eq
  rw [r2eq]
  have hcellB : getCell
      { g with
        board := (updateCell
          (updateCell g.board row.toNat col.toNat
            (fun c => { c with isFlagged := !cell.isFlagged }))
          row.toNat col.toNat
          (fun c => { c with isFlagged := !(!cell.isFlagged) })),
        flagCount := g.flagCount + (if !cell.isFlagged then 1 else -1) +
          (if !(!cell.isFlagged) then 1 else -1) } row col =
      some { cell with isFlagged := !(!cell.isFlagged) } := by
    rw [getCell_update _ _ _ _ _ hb, updateCell_self, updateCell_self, hce]
  have e3 := toggleFlag_step
    { g with
      board := (updateCell
        (updateCell g.board row.toNat col.toNat
          (fun c => { c with isFlagged := !cell.isFlagged }))
        row.toNat col.toNat
        (fun c => { c with isFlagged := !(!cell.isFlagged) })),
      flagCount := g.flagCount + (if !cell.isFlagged then 1 else -1) +
        (if !(!cell.isFlagged) then 1 else -1) }
    row col { cell with isFlagged := !(!cell.isFlagged) } hst hcellB hrev
  dsimp only at e3
  rw [e3]
  refine ⟨t1, ?_, ?_, t2, ?_, ?_, rfl, ?_, ?_⟩
  · simp [updateCell_self, hce, hfl]
  · simp [hfl]
  · simp [updateCell_self, hce, hfl]
  · simp [hfl]
  · rw [checkWin_isFlagged]
    simp [updateCell_self, hce, hfl]
  · rw [checkWin_flagCount]
    simp [hfl]

/-- Witness for the amended C4 at a concrete board: fresh 2 × 2 board with
an unreachable flag-win threshold, toggling cell (0,0). -/
theorem binaryFlagToggleCycleWitness :
    (toggleFlag cycleGame0 0 0).1 = true ∧
    ((toggleFlag cycleGame0 0 0).2.board 0 0).isFlagged = true ∧
    (toggleFlag cycleGame0 0 0).2.flagCount = cycleGame0.flagCount + 1 ∧
    (toggleFlag (toggleFlag cycleGame0 0 0).2 0 0).1 = true ∧
    ((toggleFlag (toggleFlag cycleGame0 0 0).2 0 0).2.board 0 0).isFlagged = false ∧
    (toggleFlag (toggleFlag cycleGame0 0 0).2 0 0).2.flagCount = cycleGame0.flagCount ∧
    (toggleFlag (toggleFlag (toggleFlag cycleGame0 0 0).2 0 0).2 0 0).1 = true ∧
    ((toggleFlag (toggleFlag (toggleFlag cycleGame0 0 0).2 0 0).2 0 0).2.board
      0 0).isFlagged = true ∧
    (toggleFlag (toggleFlag (toggleFlag cycleGame0 0 0).2 0 0).2 0 0).2.flagCount =
      cycleGame0.flagCount + 1 :=
  binaryFlagToggleCycle cycleGame0 0 0 (initBoard 0 0)
    rfl rfl rfl rfl (by decide) (by decide)

/-! ### Claim C3 (amended): soundness of the flag win under count invariants -/

theorem allMinesFlagged_iff {cfg : GameConfig} {b : Board} :
    allMinesFlagged cfg b = true ↔
      ∀ r, r < cfg.rows → ∀ c, c < cfg.cols →
        (b r c).isMine = true → (b r c).isFlagged = true := by
  unfold allMinesFlagged
  simp only [List.all_eq_true, List.mem_range, Bool.or_eq_true, Bool.not_eq_true']
  constructor
  · intro h r hr c hc hm
    rcases h r hr c hc with h' | h'
    · rw [hm] at h'; exact absurd h' (by simp)
    · exact h'
  · intro h r hr c hc
    by_cases hm : (b r c).isMine = true
    · exact Or.inr (h r hr c hc hm)
    · exact Or.inl (by simpa using hm)

/-- Claim C3 (amended): when the board really holds config.mines mines and
the flag counter really equals the number of flagged cells — invariants that
hold whenever mines were placed without clamping and the counter was not
corrupted — the guard of the second win condition forces every flagged cell
to be a mine.  (On the raw code the claim fails: a fresh board with no mines
placed satisfies the guard with all flags on safe cells, see the
counterexample.) -/
theorem flagWinSoundUnderCountInvariants (g : MinesweeperGame)
    (hflags : (actualFlagCnt g.config g.board : Int) = g.flagCount)
    (hmines : mineCnt g.config g.board = g.config.mines)
    (hwin : winViaFlagsCond g)
    (r c : Nat) (hr : r < g.config.rows) (hc : c < g.config.cols)
    (hf : (g.board r c).isFlagged = true) :
    (g.board r c).isMine = true := by
  obtain ⟨hfcnt, hall⟩ := hwin
  have hallP := allMinesFlagged_iff.mp hall
  have hcard : actualFlagCnt g.config g.board = g.config.mines := by
    have h2 : (actualFlagCnt g.config g.board : Int) = (g.config.mines : Int) :=
      hflags.trans hfcnt
    exact_mod_cast h2
  have hsub : (cellRect g.config).filter
        (fun p => (g.board p.1 p.2).isMine = true) ⊆
      (cellRect g.config).filter
        (fun p => (g.board p.1 p.2).isFlagged = true) := by
    intro p hp
    rw [Finset.mem_filter] at hp ⊢
    refine ⟨hp.1, ?_⟩
    have hpb : p.1 < g.config.rows ∧ p.2 < g.config.cols := by
      have := hp.1
      rw [cellRect, Finset.mem_product, Finset.mem_range, Finset.mem_range] at this
      exact this
    exact hallP p.1 hpb.1 p.2 hpb.2 hp.2
  have hle : ((cellRect g.config).filter
        (fun p => (g.board p.1 p.2).isFlagged = true)).card ≤
      ((cellRect g.config).filter
        (fun p => (g.board p.1 p.2).isMine = true)).card := by
    have e1 : ((cellRect g.config).filter
        (fun p => (g.board p.1 p.2).isFlagged = true)).card =
        actualFlagCnt g.config g.board := rfl
    have e2 : ((cellRect g.config).filter
        (fun p => (g.board p.1 p.2).isMine = true)).card =
        mineCnt g.config g.board := rfl
    rw [e1, e2, hcard, hmines]
  have heq := Finset.eq_of_subset_of_card_le hsub hle
  have hmem : (r, c) ∈ (cellRect g.config).filter
      (fun p => (g.board p.1 p.2).isFlagged = true) := by
    rw [Finset.mem_filter, cellRect, Finset.mem_product, Finset.mem_range,
      Finset.mem_range]
    exact ⟨⟨hr, hc⟩, hf⟩
  rw [← heq, Finset.mem_filter] at hmem
  exact hmem.2

/-- A concrete game satisfying the count invariants: a 1 × 2 board with one
mine at (0,0), flagged, flag counter 1. -/
def soundWinGame : MinesweeperGame :=
  { config := { rows := 1, cols := 2, mines := 1 },
    board := fun r c =>
      if r = 0 ∧ c = 0 then
        { row := 0, col := 0, isMine := true, isRevealed := false,
          isFlagged := true, adjacentMines := 0 }
      else initBoard r c,
    gameState := GameState.playing, flagCount := 1, firstClick := false }

/-- Witness for the amended C3 at a concrete board. -/
theorem flagWinSoundWitness : (soundWinGame.board 0 0).isMine = true :=
  flagWinSoundUnderCountInvariants soundWinGame (by decide) (by decide)
    (by decide) 0 0 (by decide) (by decide) (by decide)

/-! ### Claim C8: chord gating -/

/-- The gating conditions of chord: playing state, an existing revealed cell
with a nonzero adjacency number, and exactly that many flagged neighbors. -/
def chordGate (g : MinesweeperGame) (row col : Int) : Prop :=
  g.gameState = GameState.playing ∧
    ∃ cell, getCell g row col = some cell ∧ cell.isRevealed = true ∧
      cell.adjacentMines ≠ 0 ∧ adjFlagCount g row col = cell.adjacentMines

/-- Claim C8: chord returns false and mutates nothing unless the cell at
(row, col) exists, is revealed, has a nonzero adjacency count and exactly
that many flagged Moore neighbors; when the gate holds, every completed
chord call returns true, whether or not any neighbor reveal changed
anything. -/
theorem chordGating (picks : List (Nat × Nat)) (fuel : Nat)
    (g : MinesweeperGame) (row col : Int) :
    (¬ chordGate g row col → chord picks fuel g row col = some (false, g)) ∧
      (chordGate g row col → ∀ pr, chord picks fuel g row col = some pr →
        pr.1 = true) := by
  constructor
  · intro hng
    rw [chord]
    by_cases hst : g.gameState = GameState.playing
    · rw [if_neg (by simp [hst])]
      cases hgc : getCell g row col with
      | none => rfl
      | some cell =>
        by_cases hrev : cell.isRevealed = true
        · by_cases hadj : cell.adjacentMines = 0
          · simp [hrev, hadj]
          · by_cases hfc : adjFlagCount g row col = cell.adjacentMines
            · exact absurd ⟨hst, cell, hgc, hrev, hadj, hfc⟩ hng
            · simp [hrev, hadj, hfc]
        · have hrev' : cell.isRevealed = false := by
            cases h' : cell.isRevealed
            · rfl
            · exact absurd h' hrev
          simp [hrev']
    · rw [if_pos (by simp [hst])]
  · intro hg pr hpr
    obtain ⟨hst, cell, hgc, hrev, hadj, hfc⟩ := hg
    rw [chord, if_neg (by simp [hst]), hgc] at hpr
    simp only [hrev, hadj, hfc, Bool.not_true, decide_eq_true_eq, if_true,
      Bool.false_or, decide_eq_false_iff_not, not_false_eq_true,
      Bool.false_eq_true, if_false, reduceIte] at hpr
    rcases Option.bind_eq_some.mp hpr with ⟨g1, h1, hpr⟩
    rcases Option.bind_eq_some.mp hpr with ⟨g2, h2, hpr⟩
    rcases Option.bind_eq_some.mp hpr with ⟨g3, h3, hpr⟩
    rcases Option.bind_eq_some.mp hpr with ⟨g4, h4, hpr⟩
    rcases Option.bind_eq_some.mp hpr with ⟨g5, h5, hpr⟩
    rcases Option.bind_eq_some.mp hpr with ⟨g6, h6, hpr⟩
    rcases Option.bind_eq_some.mp hpr with ⟨g7, h7, hpr⟩
    rcases Option.bind_eq_some.mp hpr with ⟨g8, h8, hpr⟩
    rw [← Option.some.inj hpr]

/-- A concrete playing board for the chord witness: cell (0,0) is revealed
with one adjacent mine, the mine at (1,1) is flagged. -/
def chordWitnessGame : MinesweeperGame :=
  { config := { rows := 2, cols := 2, mines := 1 },
    board := fun r c =>
      if r = 0 ∧ c = 0 then
        { row := 0, col := 0, isMine := false, isRevealed := true,
          isFlagged := false, adjacentMines := 1 }
      else if r = 1 ∧ c = 1 then
        { row := 1, col := 1, isMine := true, isRevealed := false,
          isFlagged := true, adjacentMines := 0 }
      else
        { row := r, col := c, isMine := false, isRevealed := false,
          isFlagged := false, adjacentMines := 1 },
    gameState := GameState.playing, flagCount := 1, firstClick := false }

/-- Witness for C8: a completed chord call through the open gate reports true. -/
theorem chordGatingWitness :
    ((chord [] 3 chordWitnessGame 0 0).getD (false, chordWitnessGame)).1 = true :=
  (chordGating [] 3 chordWitnessGame 0 0).2
    ⟨rfl, { row := 0, col := 0, isMine := false, isRevealed := true,
            isFlagged := false, adjacentMines := 1 },
      by decide, rfl, by decide, by decide⟩
    ((chord [] 3 chordWitnessGame 0 0).getD (false, chordWitnessGame)) rfl

/-! ### Claim C6: adjacency counts are correct after mine placement -/

theorem countAdjacentMines_congr {cfg : GameConfig} {b1 b2 : Board}
    (h : minesAgree b1 b2) (r c : Nat) :
    countAdjacentMines cfg b2 r c = countAdjacentMines cfg b1 r c := by
  unfold countAdjacentMines
  apply List.countP_congr
  intro d _
  unfold getCellB
  by_cases hb : 0 ≤ (r : Int) + d.1 ∧ (r : Int) + d.1 < (cfg.rows : Int) ∧
      0 ≤ (c : Int) + d.2 ∧ (c : Int) + d.2 < (cfg.cols : Int)
  · rw [if_pos hb, if_pos hb]
    simp [h _ _]
  · rw [if_neg hb, if_neg hb]

/-- Claim C6: after placeMines completes, every in-grid non-mine cell's
adjacentMines field equals the number of its in-grid Moore neighbors that
are mines, a value between 0 and 8. -/
theorem adjacencyCorrect (cfg : GameConfig) (picks : List (Nat × Nat))
    (exR exC : Int) (b b' : Board)
    (h : placeMines cfg picks exR exC b = some b')
    (r c : Nat) (hr : r < cfg.rows) (hc : c < cfg.cols)
    (hm : (b' r c).isMine = false) :
    (b' r c).adjacentMines = countAdjacentMines cfg b' r c ∧
      countAdjacentMines cfg b' r c ≤ 8 := by
  obtain ⟨b0, hb0, hcalc⟩ := Option.map_eq_some'.mp h
  subst hcalc
  have hm0 : (b0 r c).isMine = false := by
    rw [minesAgree_calc cfg b0 r c] at hm
    exact hm
  constructor
  · have e1 : (calculateAdjacentMines cfg b0) r c =
        { b0 r c with adjacentMines := countAdjacentMines cfg b0 r c } := by
      unfold calculateAdjacentMines
      rw [if_pos ⟨hr, hc, hm0⟩]
    rw [e1]
    exact (countAdjacentMines_congr (minesAgree_calc cfg b0) r c).symm
  · have := List.countP_le_length
      (l := offsets) (p := fun d =>
        match getCellB cfg (calculateAdjacentMines cfg b0)
            ((r : Int) + d.1) ((c : Int) + d.2) with
        | some cell => cell.isMine
        | none => false)
    simpa [countAdjacentMines] using this

/-- Concrete mine placement for the C6 witness: one mine requested on a
4 × 4 board, candidate stream placing it at (3,3), exclusion center (0,0). -/
def placedBoardW : Option Board :=
  placeMines { rows := 4, cols := 4, mines := 1 } [(3, 3)] 0 0 initBoard

/-- Witness for C6 at cell (2,2) of the concrete placement. -/
theorem adjacencyCorrectWitness :
    ((placedBoardW.getD initBoard) 2 2).adjacentMines =
        countAdjacentMines { rows := 4, cols := 4, mines := 1 }
          (placedBoardW.getD initBoard) 2 2 ∧
      countAdjacentMines { rows := 4, cols := 4, mines := 1 }
        (placedBoardW.getD initBoard) 2 2 ≤ 8 :=
  adjacencyCorrect { rows := 4, cols := 4, mines := 1 } [(3, 3)] 0 0
    initBoard (placedBoardW.getD initBoard) rfl 2 2 (by decide) (by decide)
    (by decide)

/-! ### Claim C7: serialize / deserialize round trip -/

theorem serialize_grid_getD (g : MinesweeperGame) (r : Nat)
    (hr : r < g.config.rows) :
    (serialize g).board.getD r [] =
      List.map (fun c => toSaved (g.board r c)) (List.range g.config.cols) := by
  show (List.map _ (List.range g.config.rows)).getD r [] = _
  rw [List.getD_eq_getElem?_getD, List.getElem?_map, List.getElem?_range hr]
  rfl

theorem serialize_cell_getD (g : MinesweeperGame) (r c : Nat) (d : SavedCell)
    (hr : r < g.config.rows) (hc : c < g.config.cols) :
    ((serialize g).board.getD r []).getD c d = toSaved (g.board r c) := by
  rw [serialize_grid_getD g r hr]
  rw [List.getD_eq_getElem?_getD, List.getElem?_map, List.getElem?_range hc]
  rfl

theorem serialize_accessOk (g : MinesweeperGame) :
    snapshotAccessOk (serialize g) = true := by
  unfold snapshotAccessOk
  rw [List.all_eq_true]
  intro r hrmem
  rw [List.all_eq_true]
  intro c hcmem
  rw [List.mem_range] at hrmem hcmem
  have hrs : (serialize g).config.rows = g.config.rows := rfl
  have hcs : (serialize g).config.cols = g.config.cols := rfl
  rw [hrs] at hrmem
  rw [hcs] at hcmem
  show (((serialize g).board.get? r).bind fun rowL => rowL.get? c).isSome = true
  unfold serialize
  dsimp only
  rw [List.get?_eq_getElem?, List.getElem?_map, List.getElem?_range hrmem]
  dsimp only [Option.map_some', Option.some_bind]
  rw [List.get?_eq_getElem?, List.getElem?_map, List.getElem?_range hcmem]
  rfl

/-- serialize only reads the config, the in-grid stored cell fields, the
game state, the flag counter and the firstClick bit. -/
theorem serialize_eq_of_obs (g1 g2 : MinesweeperGame)
    (hcfg : g1.config = g2.config)
    (hboard : ∀ r, r < g2.config.rows → ∀ c, c < g2.config.cols →
      toSaved (g1.board r c) = toSaved (g2.board r c))
    (hgs : g1.gameState = g2.gameState)
    (hfc : g1.flagCount = g2.flagCount)
    (hf : g1.firstClick = g2.firstClick) :
    serialize g1 = serialize g2 := by
  unfold serialize
  rw [GameSaveData.mk.injEq]
  refine ⟨hcfg, ?_, hgs, hfc, hf⟩
  rw [hcfg]
  apply List.map_congr_left
  intro r hrmem
  apply List.map_congr_left
  intro c hcmem
  rw [List.mem_range] at hrmem hcmem
  exact hboard r hrmem c hcmem

/-- Claim C7: deserialize of a serialized board succeeds and reproduces a
board with identical per-cell isMine/isRevealed/mark/adjacentMines for every
in-grid cell, identical GameState, flagCount and mines-already-placed bit —
stated as: re-serializing the restored game yields the original snapshot,
which records exactly those observables. -/
theorem serializeRoundTrip (g : MinesweeperGame) :
    (deserialize (serialize g)).map serialize = some (serialize g) := by
  rw [deserialize, if_pos (serialize_accessOk g)]
  rw [Option.map_some']
  refine congrArg some ?_
  apply serialize_eq_of_obs
  · rfl
  · intro r hr c hc
    dsimp only
    rw [if_pos ⟨hr, hc⟩]
    rw [serialize_cell_getD g r c _ hr hc]
    rfl
  · rfl
  · rfl
  · rfl

/-! ### Mine-layout preservation through reveal -/

/-- After the first click, reveal never changes the mine layout, the config
or the firstClick bit, whatever cascade it runs. -/
theorem reveal_preserves (picks : List (Nat × Nat)) :
    ∀ fuel (g : MinesweeperGame) (row col : Int) (p : Bool × MinesweeperGame),
      g.firstClick = false →
      reveal picks fuel g row col = some p →
      p.2.config = g.config ∧ p.2.firstClick = false ∧
        minesAgree g.board p.2.board := by
  intro fuel
  induction fuel with
  | zero =>
    intro g row col p hfc h
    rw [reveal] at h
    exact absurd h (by simp)
  | succ fuel ih =>
    intro g row col p hfc h
    rw [reveal] at h
    by_cases hst : g.gameState ≠ GameState.playing
    · rw [if_pos hst] at h
      have hp := Option.some.inj h
      subst hp
      exact ⟨rfl, hfc, minesAgree_refl _⟩
    · rw [if_neg hst] at h
      cases hgc : getCell g row col with
      | none =>
        rw [hgc] at h
        have hp := Option.some.inj h
        subst hp
        exact ⟨rfl, hfc, minesAgree_refl _⟩
      | some cell0 =>
        rw [hgc] at h
        dsimp only at h
        by_cases hrv : (cell0.isRevealed || cell0.isFlagged) = true
        · rw [if_pos hrv] at h
          have hp := Option.some.inj h
          subst hp
          exact ⟨rfl, hfc, minesAgree_refl _⟩
        · rw [if_neg hrv] at h
          rw [placeStep, if_neg (by simp [hfc])] at h
          simp only [Option.some_bind] at h
          by_cases hm : ((setRevealed g row.toNat col.toNat).board
              row.toNat col.toNat).isMine = true
          · rw [if_pos hm] at h
            have hp := Option.some.inj h
            subst hp
            exact ⟨rfl, hfc,
              minesAgree_trans (minesAgree_updateRevealed _ _ _)
                (minesAgree_revealAllMines _ _)⟩
          · rw [if_neg hm] at h
            by_cases ha : ((setRevealed g row.toNat col.toNat).board
                row.toNat col.toNat).adjacentMines = 0
            · rw [if_pos ha] at h
              rcases Option.bind_eq_some.mp h with ⟨p1, h1, h⟩
              rcases Option.bind_eq_some.mp h with ⟨p2, h2, h⟩
              rcases Option.bind_eq_some.mp h with ⟨p3, h3, h⟩
              rcases Option.bind_eq_some.mp h with ⟨p4, h4, h⟩
              rcases Option.bind_eq_some.mp h with ⟨p5, h5, h⟩
              rcases Option.bind_eq_some.mp h with ⟨p6, h6, h⟩
              rcases Option.bind_eq_some.mp h with ⟨p7, h7, h⟩
              rcases Option.bind_eq_some.mp h with ⟨p8, h8, h⟩
              have hp := Option.some.inj h
              subst hp
              have hfc2 : (setRevealed g row.toNat col.toNat).firstClick = false := hfc
              obtain ⟨c1, f1, m1⟩ := ih _ _ _ _ hfc2 h1
              obtain ⟨c2, f2, m2⟩ := ih _ _ _ _ f1 h2
              obtain ⟨c3, f3, m3⟩ := ih _ _ _ _ f2 h3
              obtain ⟨c4, f4, m4⟩ := ih _ _ _ _ f3 h4
              obtain ⟨c5, f5, m5⟩ := ih _ _ _ _ f4 h5
              obtain ⟨c6, f6, m6⟩ := ih _ _ _ _ f5 h6
              obtain ⟨c7, f7, m7⟩ := ih _ _ _ _ f6 h7
              obtain ⟨c8, f8, m8⟩ := ih _ _ _ _ f7 h8
              refine ⟨?_, ?_, ?_⟩
              · exact (checkWin_config _).trans
                  (c8.trans (c7.trans (c6.trans (c5.trans (c4.trans
                    (c3.trans (c2.trans c1)))))))
              · exact (checkWin_firstClick _).trans f8
              · exact minesAgree_trans (minesAgree_updateRevealed _ _ _)
                  (minesAgree_trans m1 (minesAgree_trans m2 (minesAgree_trans m3
                    (minesAgree_trans m4 (minesAgree_trans m5 (minesAgree_trans m6
                      (minesAgree_trans m7 (minesAgree_trans m8
                        (checkWin_minesAgree _)))))))))
            · rw [if_neg ha] at h
              have hp := Option.some.inj h
              subst hp
              exact ⟨checkWin_config _, (checkWin_firstClick _).trans hfc,
                minesAgree_trans (minesAgree_updateRevealed _ _ _)
                  (checkWin_minesAgree _)⟩

/-! ### The rejection-sampling loop: exclusion zone and mine count -/

/-- The sampling loop never touches a cell inside the 3 × 3 exclusion block
around the first click. -/
theorem placeLoop_zone (cfg : GameConfig) (exR exC : Int) :
    ∀ (picks : List (Nat × Nat)) (placed : Nat) (b b' : Board),
      placeLoop cfg exR exC picks placed b = some b' →
      ∀ r' c' : Nat, ((r' : Int) - exR).natAbs ≤ 1 →
        ((c' : Int) - exC).natAbs ≤ 1 →
        (b' r' c').isMine = (b r' c').isMine := by
  intro picks
  induction picks with
  | nil =>
    intro placed b b' h r' c' hr' hc'
    rw [placeLoop] at h
    by_cases hmax : maxMines cfg ≤ placed
    · rw [if_pos hmax] at h
      rw [← Option.some.inj h]
    · rw [if_neg hmax] at h
      exact absurd h (by simp)
  | cons pk rest ih =>
    obtain ⟨pr, pc⟩ := pk
    intro placed b b' h r' c' hr' hc'
    rw [placeLoop] at h
    by_cases hmax : maxMines cfg ≤ placed
    · rw [if_pos hmax] at h
      rw [← Option.some.inj h]
    · rw [if_neg hmax] at h
      dsimp only at h
      by_cases hzone : (((pr % cfg.rows : Nat) : Int) - exR).natAbs ≤ 1 ∧
          (((pc % cfg.cols : Nat) : Int) - exC).natAbs ≤ 1
      · rw [if_pos hzone] at h
        exact ih _ _ _ h r' c' hr' hc'
      · rw [if_neg hzone] at h
        by_cases hmine : (b (pr % cfg.rows) (pc % cfg.cols)).isMine = true
        · rw [if_pos hmine] at h
          exact ih _ _ _ h r' c' hr' hc'
        · rw [if_neg hmine] at h
          have hne : ¬(r' = pr % cfg.rows ∧ c' = pc % cfg.cols) := by
            rintro ⟨h1, h2⟩
            subst h1
            subst h2
            exact hzone ⟨hr', hc'⟩
          rw [ih _ _ _ h r' c' hr' hc', updateCell_other _ _ _ _ _ _ hne]

theorem mineCnt_congr {cfg : GameConfig} {b b' : Board}
    (h : minesAgree b b') : mineCnt cfg b' = mineCnt cfg b := by
  unfold mineCnt
  congr 1
  apply Finset.filter_congr
  intro p _
  rw [h p.1 p.2]

theorem mineCnt_initBoard (cfg : GameConfig) : mineCnt cfg initBoard = 0 := by
  unfold mineCnt initBoard
  simp

/-- Turning one in-grid safe cell into a mine raises the mine count by 1. -/
theorem mineCnt_update_mine (cfg : GameConfig) (b : Board) (r0 c0 : Nat)
    (hr0 : r0 < cfg.rows) (hc0 : c0 < cfg.cols)
    (hm : ¬ (b r0 c0).isMine = true) :
    mineCnt cfg (updateCell b r0 c0 (fun cell => { cell with isMine := true })) =
      mineCnt cfg b + 1 := by
  unfold mineCnt
  have hins : (cellRect cfg).filter
        (fun p => ((updateCell b r0 c0
          (fun cell => { cell with isMine := true })) p.1 p.2).isMine = true) =
      insert (r0, c0) ((cellRect cfg).filter
        (fun p => (b p.1 p.2).isMine = true)) := by
    ext p
    rcases p with ⟨r, c⟩
    simp only [Finset.mem_filter, Finset.mem_insert, cellRect,
      Finset.mem_product, Finset.mem_range, Prod.mk.injEq]
    constructor
    · rintro ⟨⟨hrb, hcb⟩, hmine⟩
      by_cases he : r = r0 ∧ c = c0
      · exact Or.inl he
      · rw [updateCell_other _ _ _ _ _ _ he] at hmine
        exact Or.inr ⟨⟨hrb, hcb⟩, hmine⟩
    · rintro (⟨h1, h2⟩ | ⟨⟨hrb, hcb⟩, hmine⟩)
      · subst h1
        subst h2
        refine ⟨⟨hr0, hc0⟩, ?_⟩
        rw [updateCell_self]
      · refine ⟨⟨hrb, hcb⟩, ?_⟩
        by_cases he : r = r0 ∧ c = c0
        · exact absurd (he.1 ▸ he.2 ▸ hmine) hm
        · rw [updateCell_other _ _ _ _ _ _ he]
          exact hmine
  rw [hins, Finset.card_insert_of_not_mem]
  intro hmem
  rw [Finset.mem_filter] at hmem
  exact hm hmem.2

/-- When the sampling loop terminates it has placed exactly the missing
number of mines. -/
theorem placeLoop_count (cfg : GameConfig) (exR exC : Int) :
    ∀ (picks : List (Nat × Nat)) (placed : Nat) (b b' : Board),
      placeLoop cfg exR exC picks placed b = some b' →
      placed ≤ maxMines cfg →
      mineCnt cfg b' = mineCnt cfg b + (maxMines cfg - placed) := by
  intro picks
  induction picks with
  | nil =>
    intro placed b b' h hle
    rw [placeLoop] at h
    by_cases hmax : maxMines cfg ≤ placed
    · rw [if_pos hmax] at h
      rw [← Option.some.inj h]
      omega
    · rw [if_neg hmax] at h
      exact absurd h (by simp)
  | cons pk rest ih =>
    obtain ⟨pr, pc⟩ := pk
    intro placed b b' h hle
    rw [placeLoop] at h
    by_cases hmax : maxMines cfg ≤ placed
    · rw [if_pos hmax] at h
      rw [← Option.some.inj h]
      omega
    · rw [if_neg hmax] at h
      dsimp only at h
      have hlt : placed < maxMines cfg := Nat.lt_of_not_le hmax
      have hrcpos : 0 < cfg.rows * cfg.cols - 9 := by
        have hmaxpos : 0 < maxMines cfg := Nat.pos_of_ne_zero (by omega)
        rw [maxMines, lt_min_iff] at hmaxpos
        exact hmaxpos.2
      have hrows : 0 < cfg.rows := by
        rcases Nat.eq_zero_or_pos cfg.rows with h0 | h1
        · rw [h0] at hrcpos
          simp at hrcpos
        · exact h1
      have hcols : 0 < cfg.cols := by
        rcases Nat.eq_zero_or_pos cfg.cols with h0 | h1
        · rw [h0] at hrcpos
          simp at hrcpos
        · exact h1
      by_cases hzone : (((pr % cfg.rows : Nat) : Int) - exR).natAbs ≤ 1 ∧
          (((pc % cfg.cols : Nat) : Int) - exC).natAbs ≤ 1
      · rw [if_pos hzone] at h
        exact ih _ _ _ h hle
      · rw [if_neg hzone] at h
        by_cases hmine : (b (pr % cfg.rows) (pc % cfg.cols)).isMine = true
        · rw [if_pos hmine] at h
          exact ih _ _ _ h hle
        · rw [if_neg hmine] at h
          have hrec := ih _ _ _ h hlt
          rw [mineCnt_update_mine cfg b (pr % cfg.rows) (pc % cfg.cols)
            (Nat.mod_lt _ hrows) (Nat.mod_lt _ hcols) hmine] at hrec
          omega

/-- placeMines places exactly min(mines, rows*cols − 9) mines on a fresh
mine-free board. -/
theorem placeMines_count (cfg : GameConfig) (picks : List (Nat × Nat))
    (exR exC : Int) (b b' : Board)
    (h : placeMines cfg picks exR exC b = some b') :
    mineCnt cfg b' = mineCnt cfg b + maxMines cfg := by
  obtain ⟨b0, hb0, hcalc⟩ := Option.map_eq_some'.mp h
  subst hcalc
  rw [mineCnt_congr (minesAgree_calc cfg b0)]
  have := placeLoop_count cfg exR exC picks 0 b b0 hb0 (Nat.zero_le _)
  omega

/-- placeMines leaves every cell of the 3 × 3 exclusion block mine-free when
the incoming board is. -/
theorem placeMines_zone (cfg : GameConfig) (picks : List (Nat × Nat))
    (exR exC : Int) (b b' : Board)
    (h : placeMines cfg picks exR exC b = some b')
    (r' c' : Nat) (hr' : ((r' : Int) - exR).natAbs ≤ 1)
    (hc' : ((c' : Int) - exC).natAbs ≤ 1) :
    (b' r' c').isMine = (b r' c').isMine := by
  obtain ⟨b0, hb0, hcalc⟩ := Option.map_eq_some'.mp h
  subst hcalc
  rw [minesAgree_calc cfg b0 r' c']
  exact placeLoop_zone cfg exR exC picks 0 b b0 hb0 r' c' hr' hc'

/-! ### Analysis of the first reveal on a fresh board -/

/-- A successful first reveal on a fresh board runs placeMines with the
clicked cell as exclusion center, and afterwards neither the cascade nor the
win/lose bookkeeping changes the mine layout. -/
theorem reveal_fresh_analysis (cfg : GameConfig) (picks : List (Nat × Nat))
    (fuel : Nat) (r c : Nat) (hr : r < cfg.rows) (hc : c < cfg.cols)
    (p : Bool × MinesweeperGame)
    (h : reveal picks fuel (mkGame cfg) (r : Int) (c : Int) = some p) :
    ∃ b', placeMines cfg picks (r : Int) (c : Int) initBoard = some b' ∧
      p.2.config = cfg ∧ minesAgree b' p.2.board := by
  cases fuel with
  | zero =>
    rw [reveal] at h
    exact absurd h (by simp)
  | succ fuel =>
    rw [reveal] at h
    rw [if_neg (by simp [mkGame])] at h
    have hgc : getCell (mkGame cfg) (r : Int) (c : Int) =
        some (initBoard r c) := by
      unfold getCell getCellB
      rw [if_pos ⟨Int.natCast_nonneg r, by exact_mod_cast hr,
        Int.natCast_nonneg c, by exact_mod_cast hc⟩]
      rw [Int.toNat_natCast, Int.toNat_natCast]
      rfl
    rw [hgc] at h
    dsimp only at h
    rw [if_neg (by simp [initBoard])] at h
    rw [placeStep, if_pos (show (mkGame cfg).firstClick = true from rfl)] at h
    rcases Option.bind_eq_some.mp h with ⟨g1, hg1, h⟩
    rcases Option.map_eq_some'.mp hg1 with ⟨b', hb', hg1'⟩
    subst hg1'
    refine ⟨b', hb', ?_⟩
    simp only [Int.toNat_natCast] at h
    by_cases hm : ((setRevealed
        { mkGame cfg with board := b', firstClick := false } r c).board
        r c).isMine = true
    · rw [if_pos hm] at h
      have hp := Option.some.inj h
      subst hp
      exact ⟨rfl, minesAgree_trans (minesAgree_updateRevealed _ _ _)
        (minesAgree_revealAllMines _ _)⟩
    · rw [if_neg hm] at h
      by_cases ha : ((setRevealed
          { mkGame cfg with board := b', firstClick := false } r c).board
          r c).adjacentMines = 0
      · rw [if_pos ha] at h
        rcases Option.bind_eq_some.mp h with ⟨p1, h1, h⟩
        rcases Option.bind_eq_some.mp h with ⟨p2, h2, h⟩
        rcases Option.bind_eq_some.mp h with ⟨p3, h3, h⟩
        rcases Option.bind_eq_some.mp h with ⟨p4, h4, h⟩
        rcases Option.bind_eq_some.mp h with ⟨p5, h5, h⟩
        rcases Option.bind_eq_some.mp h with ⟨p6, h6, h⟩
        rcases Option.bind_eq_some.mp h with ⟨p7, h7, h⟩
        rcases Option.bind_eq_some.mp h with ⟨p8, h8, h⟩
        have hp := Option.some.inj h
        subst hp
        have hfc2 : (setRevealed
            { mkGame cfg with board := b', firstClick := false } r c).firstClick =
            false := rfl
        obtain ⟨c1, f1, m1⟩ := reveal_preserves picks _ _ _ _ _ hfc2 h1
        obtain ⟨c2, f2, m2⟩ := reveal_preserves picks _ _ _ _ _ f1 h2
        obtain ⟨c3, f3, m3⟩ := reveal_preserves picks _ _ _ _ _ f2 h3
        obtain ⟨c4, f4, m4⟩ := reveal_preserves picks _ _ _ _ _ f3 h4
        obtain ⟨c5, f5, m5⟩ := reveal_preserves picks _ _ _ _ _ f4 h5
        obtain ⟨c6, f6, m6⟩ := reveal_preserves picks _ _ _ _ _ f5 h6
        obtain ⟨c7, f7, m7⟩ := reveal_preserves picks _ _ _ _ _ f6 h7
        obtain ⟨c8, f8, m8⟩ := reveal_preserves picks _ _ _ _ _ f7 h8
        refine ⟨?_, ?_⟩
        · exact (checkWin_config _).trans
            (c8.trans (c7.trans (c6.trans (c5.trans (c4.trans
              (c3.trans (c2.trans c1)))))))
        · exact minesAgree_trans (minesAgree_updateRevealed _ _ _)
            (minesAgree_trans m1 (minesAgree_trans m2 (minesAgree_trans m3
              (minesAgree_trans m4 (minesAgree_trans m5 (minesAgree_trans m6
                (minesAgree_trans m7 (minesAgree_trans m8
                  (checkWin_minesAgree _)))))))))
      · rw [if_neg ha] at h
        have hp := Option.some.inj h
        subst hp
        exact ⟨checkWin_config _,
          minesAgree_trans (minesAgree_updateRevealed _ _ _)
            (checkWin_minesAgree _)⟩

/-! ### Claim C5: clamped mine placement -/

/-- Claim C5: after a completed first reveal on a fresh board, the number of
cells with isMine = true equals min(requested mineCount, rows·cols − 9)
(natural-number subtraction: the while loop runs zero times when the grid
has fewer than 9 spare cells, exactly as Math.min with a negative bound). -/
theorem clampedMineCount (cfg : GameConfig) (picks : List (Nat × Nat))
    (fuel : Nat) (r c : Nat) (hr : r < cfg.rows) (hc : c < cfg.cols)
    (p : Bool × MinesweeperGame)
    (h : reveal picks fuel (mkGame cfg) (r : Int) (c : Int) = some p) :
    mineCnt cfg p.2.board = min cfg.mines (cfg.rows * cfg.cols - 9) := by
  obtain ⟨b', hb', _, hma⟩ := reveal_fresh_analysis cfg picks fuel r c hr hc p h
  rw [mineCnt_congr hma]
  have := placeMines_count cfg picks (r : Int) (c : Int) initBoard b' hb'
  rw [mineCnt_initBoard] at this
  rw [this, Nat.zero_add]
  rfl

/-- Witness input for C5 and C2: a 4 × 4 board with one requested mine,
candidate stream placing it at (3,3), first click at (0,0). -/
def freshRevealW : Option (Bool × MinesweeperGame) :=
  reveal [(3, 3)] 20 (mkGame { rows := 4, cols := 4, mines := 1 }) 0 0

/-- Witness for C5 at the concrete first reveal. -/
theorem clampedMineCountWitness :
    mineCnt { rows := 4, cols := 4, mines := 1 }
      ((freshRevealW.getD (false, mkGame { rows := 4, cols := 4, mines := 1 })).2).board =
      min 1 (4 * 4 - 9) :=
  clampedMineCount { rows := 4, cols := 4, mines := 1 } [(3, 3)] 20 0 0
    (by decide) (by decide)
    (freshRevealW.getD (false, mkGame { rows := 4, cols := 4, mines := 1 })) rfl

/-! ### Claim C2: first-click safety -/

/-- Claim C2: a completed first reveal at in-bounds (r, c) on a fresh board
leaves (r, c) and each of its up-to-8 Moore neighbors mine-free. -/
theorem firstClickSafe (cfg : GameConfig) (picks : List (Nat × Nat))
    (fuel : Nat) (r c : Nat) (hr : r < cfg.rows) (hc : c < cfg.cols)
    (p : Bool × MinesweeperGame)
    (h : reveal picks fuel (mkGame cfg) (r : Int) (c : Int) = some p)
    (r' c' : Nat) (hr' : ((r' : Int) - (r : Int)).natAbs ≤ 1)
    (hc' : ((c' : Int) - (c : Int)).natAbs ≤ 1) :
    (p.2.board r' c').isMine = false := by
  obtain ⟨b', hb', _, hma⟩ := reveal_fresh_analysis cfg picks fuel r c hr hc p h
  rw [hma r' c']
  rw [placeMines_zone cfg picks (r : Int) (c : Int) initBoard b' hb' r' c' hr' hc']
  rfl

/-- Witness for C2: neither the revealed cell (0,0) nor its neighbor (1,1)
is a mine after the concrete first reveal. -/
theorem firstClickSafeWitness :
    ((freshRevealW.getD
      (false, mkGame { rows := 4, cols := 4, mines := 1 })).2.board 1 1).isMine =
      false :=
  firstClickSafe { rows := 4, cols := 4, mines := 1 } [(3, 3)] 20 0 0
    (by decide) (by decide)
    (freshRevealW.getD (false, mkGame { rows := 4, cols := 4, mines := 1 })) rfl
    1 1 (by decide) (by decide)

/-! ### Claim C10: flagging mineCount cells before any reveal wins -/

theorem updateFlag_isMine (b : Board) (r c : Nat) (v : Bool) (r' c' : Nat) :
    ((updateCell b r c (fun cell => { cell with isFlagged := v })) r' c').isMine =
      (b r' c').isMine := by
  unfold updateCell
  by_cases h : r' = r ∧ c' = c <;> simp [h]

theorem updateFlag_isRevealed (b : Board) (r c : Nat) (v : Bool) (r' c' : Nat) :
    ((updateCell b r c (fun cell => { cell with isFlagged := v })) r' c').isRevealed =
      (b r' c').isRevealed := by
  unfold updateCell
  by_cases h : r' = r ∧ c' = c <;> simp [h]

theorem unrevealedSafeCount_ne_zero (cfg : GameConfig) (b : Board)
    (hrows : 0 < cfg.rows) (hcols : 0 < cfg.cols)
    (hm : (b 0 0).isMine = false) (hrv : (b 0 0).isRevealed = false) :
    unrevealedSafeCount cfg b ≠ 0 := by
  apply Finset.card_ne_zero_of_mem (a := ((0, 0) : Nat × Nat))
  rw [Finset.mem_filter]
  refine ⟨?_, hm, hrv⟩
  rw [cellRect, Finset.mem_product]
  exact ⟨Finset.mem_range.mpr hrows, Finset.mem_range.mpr hcols⟩

theorem allMinesFlagged_noMines (cfg : GameConfig) (b : Board)
    (h : ∀ r c, (b r c).isMine = false) : allMinesFlagged cfg b = true := by
  rw [allMinesFlagged_iff]
  intro r _ c _ hm
  rw [h r c] at hm
  exact absurd hm (by simp)

theorem checkWin_no_win (g : MinesweeperGame)
    (h1 : unrevealedSafeCount g.config g.board ≠ 0)
    (h2 : ¬ winViaFlagsCond g) : checkWin g = g := by
  unfold checkWin
  rw [if_neg h1, if_neg h2]

theorem checkWin_flag_win (g : MinesweeperGame)
    (h1 : unrevealedSafeCount g.config g.board ≠ 0)
    (h2 : winViaFlagsCond g) : (checkWin g).gameState = GameState.won := by
  unfold checkWin
  rw [if_neg h1, if_pos h2]

/-- getCell at an in-bounds natural coordinate pair. -/
theorem getCell_natCast (g : MinesweeperGame) (q1 q2 : Nat)
    (h1 : q1 < g.config.rows) (h2 : q2 < g.config.cols) :
    getCell g (q1 : Int) (q2 : Int) = some (g.board q1 q2) := by
  unfold getCell getCellB
  rw [if_pos ⟨Int.natCast_nonneg _, by exact_mod_cast h1,
    Int.natCast_nonneg _, by exact_mod_cast h2⟩]
  rw [Int.toNat_natCast, Int.toNat_natCast]

/-- Flagging an unflagged cell of an all-unrevealed no-mine board while the
flag counter stays short of config.mines: checkWin does not fire and the
result is the plain flag/counter update. -/
theorem toggleFresh_nowin (cfg : GameConfig)
    (hrows : 0 < cfg.rows) (hcols : 0 < cfg.cols)
    (g : MinesweeperGame) (q1 q2 : Nat)
    (hq1 : q1 < cfg.rows) (hq2 : q2 < cfg.cols)
    (hcfg : g.config = cfg) (hst : g.gameState = GameState.playing)
    (hnm : ∀ r c, (g.board r c).isMine = false)
    (hnr : ∀ r c, (g.board r c).isRevealed = false)
    (hqf : (g.board q1 q2).isFlagged = false)
    (hnot : g.flagCount + 1 ≠ (cfg.mines : Int)) :
    (toggleFlag g (q1 : Int) (q2 : Int)).2 =
      { g with board := (updateCell g.board q1 q2
          (fun c => { c with isFlagged := true })),
               flagCount := g.flagCount + 1 } := by
  have hgc := getCell_natCast g q1 q2 (hcfg ▸ hq1) (hcfg ▸ hq2)
  have e1 := toggleFlag_step g _ _ _ hst hgc (hnr q1 q2)
  rw [hqf] at e1
  simp only [Bool.not_false, Int.toNat_natCast, reduceIte] at e1
  rw [e1]
  dsimp only
  rw [checkWin_no_win]
  · apply unrevealedSafeCount_ne_zero
    · simp [hcfg, hrows]
    · simp [hcfg, hcols]
    · exact (updateFlag_isMine g.board q1 q2 true 0 0).trans (hnm 0 0)
    · exact (updateFlag_isRevealed g.board q1 q2 true 0 0).trans (hnr 0 0)
  · rintro ⟨hfc, _⟩
    simp only [hcfg] at hfc
    exact hnot hfc

/-- Flagging the cell that brings the counter up to config.mines on a
no-mine all-unrevealed board fires the all-mines-flagged win. -/
theorem toggleFresh_win (cfg : GameConfig)
    (hrows : 0 < cfg.rows) (hcols : 0 < cfg.cols)
    (g : MinesweeperGame) (q1 q2 : Nat)
    (hq1 : q1 < cfg.rows) (hq2 : q2 < cfg.cols)
    (hcfg : g.config = cfg) (hst : g.gameState = GameState.playing)
    (hnm : ∀ r c, (g.board r c).isMine = false)
    (hnr : ∀ r c, (g.board r c).isRevealed = false)
    (hqf : (g.board q1 q2).isFlagged = false)
    (hlast : g.flagCount + 1 = (cfg.mines : Int)) :
    ((toggleFlag g (q1 : Int) (q2 : Int)).2).gameState = GameState.won := by
  have hgc := getCell_natCast g q1 q2 (hcfg ▸ hq1) (hcfg ▸ hq2)
  have e1 := toggleFlag_step g _ _ _ hst hgc (hnr q1 q2)
  rw [hqf] at e1
  simp only [Bool.not_false, Int.toNat_natCast, reduceIte] at e1
  rw [e1]
  dsimp only
  apply checkWin_flag_win
  · apply unrevealedSafeCount_ne_zero
    · simp [hcfg, hrows]
    · simp [hcfg, hcols]
    · exact (updateFlag_isMine g.board q1 q2 true 0 0).trans (hnm 0 0)
    · exact (updateFlag_isRevealed g.board q1 q2 true 0 0).trans (hnr 0 0)
  · constructor
    · simp only [hcfg]
      exact hlast
    · apply allMinesFlagged_noMines
      intro r c
      exact (updateFlag_isMine g.board q1 q2 true r c).trans (hnm r c)

/-- Folding flag toggles over a nonempty nodup list of in-bounds cells of a
fresh-style board whose flag deficit equals the list length ends in Won. -/
theorem flagFoldWins (cfg : GameConfig)
    (hrows : 0 < cfg.rows) (hcols : 0 < cfg.cols) :
    ∀ (todo : List (Nat × Nat)) (g : MinesweeperGame),
      todo ≠ [] → todo.Nodup →
      (∀ q ∈ todo, q.1 < cfg.rows ∧ q.2 < cfg.cols) →
      g.config = cfg → g.gameState = GameState.playing →
      (∀ r c, (g.board r c).isMine = false) →
      (∀ r c, (g.board r c).isRevealed = false) →
      (∀ q ∈ todo, (g.board q.1 q.2).isFlagged = false) →
      g.flagCount + todo.length = (cfg.mines : Int) →
      (todo.foldl (fun h q => (toggleFlag h (q.1 : Int) (q.2 : Int)).2)
        g).gameState = GameState.won := by
  intro todo
  induction todo with
  | nil =>
    intro g hne
    exact absurd rfl hne
  | cons q rest ih =>
    obtain ⟨qa, qb⟩ := q
    intro g _ hnd hin hcfg hst hnm hnr hnf hcount
    have hqin := hin (qa, qb) (List.mem_cons_self _ _)
    have hqf := hnf (qa, qb) (List.mem_cons_self _ _)
    rw [List.foldl_cons]
    cases rest with
    | nil =>
      rw [List.foldl_nil]
      apply toggleFresh_win cfg hrows hcols g qa qb hqin.1 hqin.2 hcfg hst
        hnm hnr hqf
      simp only [List.length_cons, List.length_nil] at hcount
      push_cast at hcount
      omega
    | cons q2 rest2 =>
      have hnot : g.flagCount + 1 ≠ (cfg.mines : Int) := by
        simp only [List.length_cons] at hcount
        push_cast at hcount
        omega
      rw [toggleFresh_nowin cfg hrows hcols g qa qb hqin.1 hqin.2 hcfg hst
        hnm hnr hqf hnot]
      apply ih
      · simp
      · exact (List.nodup_cons.mp hnd).2
      · intro q' hq'
        exact hin q' (List.mem_cons_of_mem _ hq')
      · exact hcfg
      · exact hst
      · intro r c
        exact (updateFlag_isMine g.board qa qb true r c).trans (hnm r c)
      · intro r c
        exact (updateFlag_isRevealed g.board qa qb true r c).trans (hnr r c)
      · intro q' hq'
        have hne' : ¬(q'.1 = qa ∧ q'.2 = qb) := by
          rintro ⟨e1, e2⟩
          have hq'eq : q' = (qa, qb) := by
            rcases q' with ⟨a, b⟩
            simp only at e1 e2
            rw [e1, e2]
          rw [hq'eq] at hq'
          exact (List.nodup_cons.mp hnd).1 hq'
        exact (congrArg Cell.isFlagged
          (updateCell_other _ _ _ _ _ _ hne')).trans
          (hnf q' (List.mem_cons_of_mem _ hq'))
      · show g.flagCount + 1 + ((q2 :: rest2).length : Int) = (cfg.mines : Int)
        simp only [List.length_cons] at hcount ⊢
        push_cast at hcount ⊢
        omega

/-- Claim C10: on a freshly constructed board with 1 ≤ mineCount ≤ rows·cols
and no reveal ever issued (hence no mines placed), flag-toggling each of any
mineCount distinct in-bounds cells once drives GameState to Won: the flag
counter reaches the configured mineCount and the all-mines-flagged scan is
vacuously true on the mine-free board. -/
theorem prePlacementFlagWin (cfg : GameConfig) (cells : List (Nat × Nat))
    (h1 : 1 ≤ cfg.mines) (h2 : cfg.mines ≤ cfg.rows * cfg.cols)
    (hnd : cells.Nodup) (hlen : cells.length = cfg.mines)
    (hin : ∀ q ∈ cells, q.1 < cfg.rows ∧ q.2 < cfg.cols) :
    (cells.foldl (fun g q => (toggleFlag g (q.1 : Int) (q.2 : Int)).2)
      (mkGame cfg)).gameState = GameState.won := by
  have hrc : 0 < cfg.rows * cfg.cols := lt_of_lt_of_le h1 h2
  have hrows : 0 < cfg.rows := by
    rcases Nat.eq_zero_or_pos cfg.rows with h0 | hp
    · rw [h0] at hrc
      simp at hrc
    · exact hp
  have hcols : 0 < cfg.cols := by
    rcases Nat.eq_zero_or_pos cfg.cols with h0 | hp
    · rw [h0] at hrc
      simp at hrc
    · exact hp
  apply flagFoldWins cfg hrows hcols cells (mkGame cfg)
  · intro he
    rw [he] at hlen
    simp at hlen
    omega
  · exact hnd
  · exact hin
  · rfl
  · rfl
  · intro r c
    rfl
  · intro r c
    rfl
  · intro q _
    rfl
  · show (0 : Int) + (cells.length : Int) = (cfg.mines : Int)
    rw [hlen]
    omega

/-- Witness for C10: flagging the two cells (0,0) and (0,1) of a fresh
2 × 2 board configured with 2 mines wins without any reveal. -/
theorem prePlacementFlagWinWitness :
    (([((0 : Nat), (0 : Nat)), (0, 1)]).foldl
      (fun g q => (toggleFlag g (q.1 : Int) (q.2 : Int)).2)
      (mkGame { rows := 2, cols := 2, mines := 2 })).gameState =
      GameState.won :=
  prePlacementFlagWin { rows := 2, cols := 2, mines := 2 }
    [(0, 0), (0, 1)] (by decide) (by decide) (by decide) (by decide)
    (by decide)

end Minesweeper
